import Mathlib

/-!
Verification of the statement-ingestion pipeline of the telegram bank-statement
bot (source files: bot.py, pdf_parser.py, database.py, config.py).

The Python source is shallowly embedded: pure fragments become Lean functions
over `List Char` / `String` / `Nat` / `Int` / `Rat`; fallible fragments return
`Except`; the stateful handler is modelled as an event trace plus an explicit
file-system state.  Currency amounts are modelled exactly as integer cents
(the claims under study are sign/format properties, not float-rounding ones).
-/

namespace TelegramApp

/-! ### Small character and list utilities (models of Python str primitives) -/

/-- Model of the whitespace set recognized by Python `str.strip` (ASCII part). -/
def pyIsSpace (c : Char) : Bool :=
  c.toNat = 32 || c.toNat = 9 || c.toNat = 10 || c.toNat = 13 || c.toNat = 11 || c.toNat = 12

def isDigitCh (c : Char) : Bool := 48 ≤ c.toNat && c.toNat ≤ 57

/-- `leadsWith p l` : `p` is an initial segment of `l`. -/
def leadsWith : List Char → List Char → Bool
  | [], _ => true
  | _ :: _, [] => false
  | p :: ps, c :: cs => p == c && leadsWith ps cs

/-- `containsSeq p l` : `p` occurs contiguously inside `l`
    (model of Python `p in l` on strings). -/
def containsSeq (p : List Char) : List Char → Bool
  | [] => p.isEmpty
  | c :: cs => leadsWith p (c :: cs) || containsSeq p cs

/-- `trailsWith p l` : `p` is a final segment of `l` (Python `str.endswith`). -/
def trailsWith (p l : List Char) : Bool := leadsWith p.reverse l.reverse

/-- ASCII lower-casing of one character (Python `str.lower` restricted to ASCII,
    which is all the source ever compares). -/
def lowerCh (c : Char) : Char :=
  if 65 ≤ c.toNat && c.toNat ≤ 90 then Char.ofNat (c.toNat + 32) else c

def pyLower (s : String) : String := String.mk (s.data.map lowerCh)

def upperCh (c : Char) : Char :=
  if 97 ≤ c.toNat && c.toNat ≤ 122 then Char.ofNat (c.toNat - 32) else c

def isAlphaCh (c : Char) : Bool :=
  (65 ≤ c.toNat && c.toNat ≤ 90) || (97 ≤ c.toNat && c.toNat ≤ 122)

/-- Model of Python `str.title` (ASCII): first letter of every alphabetic run
    is upper-cased, the rest lower-cased. -/
def pyTitleAux : Bool → List Char → List Char
  | _, [] => []
  | prevAlpha, c :: rest =>
      (if isAlphaCh c then (if prevAlpha then lowerCh c else upperCh c) else c)
        :: pyTitleAux (isAlphaCh c) rest

def pyTitle (s : String) : String := String.mk (pyTitleAux false s.data)

/-! ### Decimal rendering of naturals (model of Python `str(int)` / format `d`) -/

def digitChar (d : Nat) : Char := Char.ofNat (48 + d)

/-- Fuel-driven (hence structurally recursive and kernel-reducible) decimal
    rendering of a natural number. -/
def natToDecAux : Nat → Nat → List Char
  | 0, _ => []
  | fuel + 1, n =>
      if n < 10 then [digitChar n]
      else natToDecAux fuel (n / 10) ++ [digitChar (n % 10)]

def natToDec (n : Nat) : String := String.mk (natToDecAux (n + 1) n)

/-- Decimal value of a digit list; inverse of `natToDec`. -/
def decVal (cs : List Char) : Nat := cs.foldl (fun a c => a * 10 + (c.toNat - 48)) 0

theorem digitChar_toNat {d : Nat} (h : d < 10) : (digitChar d).toNat = 48 + d := by
  interval_cases d <;> decide

theorem decVal_append (xs ys : List Char) :
    decVal (xs ++ ys) = ys.foldl (fun a c => a * 10 + (c.toNat - 48)) (decVal xs) := by
  simp [decVal, List.foldl_append]

theorem decVal_natToDecAux : ∀ fuel n, n < fuel → decVal (natToDecAux fuel n) = n := by
  intro fuel
  induction fuel with
  | zero => intro n h; omega
  | succ fuel ih =>
      intro n h
      by_cases h10 : n < 10
      · simp [natToDecAux, h10, decVal, digitChar_toNat h10]
      · have hdiv : n / 10 < fuel := by
          have h1 : n / 10 < n := Nat.div_lt_self (by omega) (by omega)
          omega
        have hmod : n % 10 < 10 := Nat.mod_lt _ (by omega)
        simp only [natToDecAux, h10, if_false, decVal_append]
        rw [show (natToDecAux fuel (n / 10)) = natToDecAux fuel (n / 10) from rfl]
        have := ih (n / 10) hdiv
        simp [List.foldl, this, digitChar_toNat hmod]
        omega

theorem decVal_natToDec (n : Nat) : decVal (natToDec n).data = n := by
  simp [natToDec]
  exact decVal_natToDecAux (n + 1) n (Nat.lt_succ_self n)

theorem natToDec_inj : Function.Injective natToDec := by
  intro a b h
  have : decVal (natToDec a).data = decVal (natToDec b).data := by rw [h]
  rwa [decVal_natToDec, decVal_natToDec] at this

/-- Every character produced by `natToDecAux` is a decimal digit. -/
theorem natToDecAux_digits : ∀ fuel n c, c ∈ natToDecAux fuel n → ∃ d, d < 10 ∧ c = digitChar d := by
  intro fuel
  induction fuel with
  | zero => intro n c h; simp [natToDecAux] at h
  | succ fuel ih =>
      intro n c h
      by_cases h10 : n < 10
      · simp [natToDecAux, h10] at h
        exact ⟨n, h10, h⟩
      · simp only [natToDecAux, h10, if_false, List.mem_append, List.mem_singleton] at h
        rcases h with h | h
        · exact ih _ _ h
        · exact ⟨n % 10, Nat.mod_lt _ (by omega), h⟩

theorem digit_not_nl {d : Nat} (h : d < 10) : digitChar d ≠ '\n' := by
  intro he
  have := congrArg Char.toNat he
  rw [digitChar_toNat h] at this
  simp at this
  omega

theorem digit_not_space {d : Nat} (h : d < 10) : pyIsSpace (digitChar d) = false := by
  simp [pyIsSpace, digitChar_toNat h]
  omega

/-! ### database.py : users table and `get_or_create_user` -/

structure UserRow where
  id : Nat
  telegram_id : String
  username : Option String
deriving DecidableEq

/-- The durable store restricted to the `users` table: rows in insertion order
    plus the autoincrement counter. -/
structure UsersDB where
  users : List UserRow
  nextId : Nat
deriving DecidableEq

/-- Model of `get_or_create_user` (database.py lines 76-88): query the first
    row with the given telegram id; if absent, insert a fresh row and return it. -/
def get_or_create_user (telegram_id : String) (username : Option String)
    (db : UsersDB) : UserRow × UsersDB :=
  match db.users.find? (fun u => u.telegram_id == telegram_id) with
  | some u => (u, db)
  | none =>
      let u : UserRow := ⟨db.nextId, telegram_id, username⟩
      (u, ⟨db.users ++ [u], db.nextId + 1⟩)

theorem find?_append_of_none {α : Type} (p : α → Bool) (l l2 : List α)
    (h : l.find? p = none) : (l ++ l2).find? p = l2.find? p := by
  induction l with
  | nil => simp
  | cons a l ih =>
      cases hpa : p a with
      | true =>
          rw [List.find?_cons_of_pos _ hpa] at h
          exact absurd h (by simp)
      | false =>
          have hpa' : ¬ p a = true := by simp [hpa]
          rw [List.find?_cons_of_neg _ hpa'] at h
          rw [List.cons_append, List.find?_cons_of_neg _ hpa']
          exact ih h

theorem find?_pred {α : Type} (p : α → Bool) (l : List α) (a : α)
    (h : l.find? p = some a) : p a = true := by
  induction l with
  | nil => simp at h
  | cons b l ih =>
      cases hpb : p b with
      | true =>
          rw [List.find?_cons_of_pos _ hpb] at h
          injection h with h2
          subst h2
          exact hpb
      | false =>
          rw [List.find?_cons_of_neg _ (by simp [hpb])] at h
          exact ih h

/-- Claim C10: `get_or_create_user` is idempotent — both calls return a user
    carrying the requested telegram id, the two calls create at most one row in
    total, and the second call returns the same user and leaves the store
    unchanged. -/
theorem C10_get_or_create_user_idempotent (db : UsersDB) (tid : String)
    (un un2 : Option String) :
    let r1 := get_or_create_user tid un db
    let r2 := get_or_create_user tid un2 r1.2
    r1.1.telegram_id = tid ∧ r2.1.telegram_id = tid ∧
      r2.1 = r1.1 ∧ r2.2 = r1.2 ∧
      r1.2.users.length ≤ db.users.length + 1 := by
  intro r1 r2
  cases hf : db.users.find? (fun u => u.telegram_id == tid) with
  | some u =>
      have hu : (u.telegram_id == tid) = true :=
        find?_pred (fun u => u.telegram_id == tid) db.users u hf
      have hueq : u.telegram_id = tid := by simpa using hu
      have hr1 : r1 = (u, db) := by simp [r1, get_or_create_user, hf]
      have hr2 : r2 = (u, db) := by simp [r2, r1, get_or_create_user, hf]
      refine ⟨?_, ?_, ?_, ?_, ?_⟩ <;> simp [hr1, hr2, hueq]
  | none =>
      have hr1 : r1 = (⟨db.nextId, tid, un⟩,
          ⟨db.users ++ [⟨db.nextId, tid, un⟩], db.nextId + 1⟩) := by
        simp [r1, get_or_create_user, hf]
      have hfind2 : (db.users ++ [(⟨db.nextId, tid, un⟩ : UserRow)]).find?
          (fun u => u.telegram_id == tid) = some ⟨db.nextId, tid, un⟩ := by
        rw [find?_append_of_none _ _ _ hf]
        simp [List.find?_cons]
      have hr2 : r2 = (⟨db.nextId, tid, un⟩,
          ⟨db.users ++ [⟨db.nextId, tid, un⟩], db.nextId + 1⟩) := by
        simp only [r2, get_or_create_user]
        rw [hr1]
        simp [hfind2]
      refine ⟨?_, ?_, ?_, ?_, ?_⟩ <;> simp [hr1, hr2]

/-! ### pdf_parser.py : locating the JSON object in a classification-service
response (`parse_bank_statement` lines 168-182, `analyze_recurring_payments`
lines 238-252).  `json.loads` is abstracted as a parameter `jl`; the one fact
about it the code relies on is that the empty string is not valid JSON. -/

def lbrace : Char := Char.ofNat 123
def rbrace : Char := Char.ofNat 125

/-- Index of the first occurrence of `c` (Python `str.find`, `none` for -1). -/
def pyFind (c : Char) : List Char → Option Nat
  | [] => none
  | x :: xs => if x == c then some 0 else (pyFind c xs).map (· + 1)

/-- Index of the last occurrence of `c` (Python `str.rfind`, `none` for -1). -/
def pyRfind (c : Char) : List Char → Option Nat
  | [] => none
  | x :: xs =>
      match pyRfind c xs with
      | some k => some (k + 1)
      | none => if x == c then some 0 else none

theorem pyFind_mem (c : Char) : ∀ cs i, pyFind c cs = some i → cs.get? i = some c := by
  intro cs
  induction cs with
  | nil => intro i h; simp [pyFind] at h
  | cons x xs ih =>
      intro i h
      rw [pyFind] at h
      by_cases hx : (x == c) = true
      · rw [if_pos hx] at h
        injection h with h
        subst h
        simp [List.get?]
        exact eq_of_beq hx
      · rw [if_neg hx] at h
        cases hf : pyFind c xs with
        | none => rw [hf] at h; simp at h
        | some k =>
            rw [hf] at h
            simp at h
            subst h
            simpa using ih k hf

theorem pyRfind_mem (c : Char) : ∀ cs i, pyRfind c cs = some i → cs.get? i = some c := by
  intro cs
  induction cs with
  | nil => intro i h; simp [pyRfind] at h
  | cons x xs ih =>
      intro i h
      rw [pyRfind] at h
      cases hr : pyRfind c xs with
      | some k =>
          rw [hr] at h
          injection h with h
          subst h
          simpa using ih k hr
      | none =>
          rw [hr] at h
          by_cases hx : (x == c) = true
          · rw [if_pos hx] at h
            injection h with h
            subst h
            simp [List.get?]
            exact eq_of_beq hx
          · rw [if_neg hx] at h
            simp at h

/-- The slice `content[json_start:json_end]` computed at pdf_parser.py lines
171-175 / 241-245: `json_start = content.find(lbrace)`,
`json_end = content.rfind(rbrace) + 1`.  When `rfind` returns -1, `json_end`
is 0 — which still passes the code's `json_end != -1` test, so the (empty)
slice is taken anyway. -/
def locateJson (content : String) : Option String :=
  let cs := content.data
  match pyFind lbrace cs with
  | none => none
  | some js =>
      let je : Nat := match pyRfind rbrace cs with | none => 0 | some k => k + 1
      some (String.mk ((cs.drop js).take (je - js)))

/-- Shared body of the two service-response parsers: locate the JSON slice and
feed it to `json.loads` (`jl`); raise when no slice or the slice is invalid. -/
def jsonClean (notFoundMsg : String) (jl : String → Option α) (content : String) :
    Except String α :=
  match locateJson content with
  | some jstr =>
      match jl jstr with
      | some v => .ok v
      | none => .error "the JSON object must be str, bytes or bytearray / invalid JSON"
  | none => .error notFoundMsg

/-- Model of `PDFParser.parse_bank_statement` restricted to its response
handling (the request itself is the classification service, outside the core). -/
def parse_bank_statement (jl : String → Option α) (content : String) : Except String α :=
  match jsonClean "No valid JSON found in OpenAI response" jl content with
  | .ok v => .ok v
  | .error e => .error ("Error parsing with OpenAI: " ++ e)

/-- Model of `PDFParser.analyze_recurring_payments` restricted to its response
handling. -/
def analyze_recurring_payments (jl : String → Option α) (content : String) :
    Except String α :=
  match jsonClean "No valid JSON found in recurring payment analysis" jl content with
  | .ok v => .ok v
  | .error e => .error ("Error analyzing recurring payments: " ++ e)

/-- Spec-side definition (from the claim's words, for comparison with the
code): the substring between the first left brace and the last right brace,
defined when both exist in that order. -/
def bracesSub (cs : List Char) : Option (List Char) :=
  match pyFind lbrace cs, pyRfind rbrace cs with
  | some i, some j => if i < j then some ((cs.drop i).take (j + 1 - i)) else none
  | _, _ => none

theorem jsonClean_ok_iff {α : Type} (nf : String) (jl : String → Option α)
    (hjl : jl "" = none) (content : String) (v : α) :
    jsonClean nf jl content = .ok v ↔
      ∃ s, bracesSub content.data = some s ∧ jl (String.mk s) = some v := by
  cases hf : pyFind lbrace content.data with
  | none =>
      simp [jsonClean, locateJson, bracesSub, hf]
  | some i =>
      cases hr : pyRfind rbrace content.data with
      | none =>
          have hempty : ((content.data.drop i).take (0 - i)) = [] := by
            simp [Nat.zero_sub]
          simp only [jsonClean, locateJson, bracesSub, hf, hr, hempty]
          rw [show String.mk ([] : List Char) = "" from rfl, hjl]
          simp
      | some j =>
          by_cases hij : i < j
          · simp only [jsonClean, locateJson, bracesSub, hf, hr, if_pos hij]
            cases hj : jl (String.mk ((content.data.drop i).take (j + 1 - i))) with
            | none => simp [hj]
            | some w => simp [hj]
          · have hne : i ≠ j := by
              intro he
              subst he
              have h1 := pyFind_mem lbrace content.data i hf
              have h2 := pyRfind_mem rbrace content.data i hr
              rw [h1] at h2
              injection h2 with h2
              exact absurd h2 (by decide)
            have hji : j + 1 ≤ i := by omega
            have hempty : ((content.data.drop i).take (j + 1 - i)) = [] := by
              have h0 : j + 1 - i = 0 := Nat.sub_eq_zero_of_le hji
              simp [h0]
            simp only [jsonClean, locateJson, bracesSub, hf, hr, if_neg hij, hempty]
            rw [show String.mk ([] : List Char) = "" from rfl, hjl]
            simp

theorem except_error_iff_not_ok {α : Type} (x : Except String α) :
    (∃ e, x = .error e) ↔ ∀ v, x ≠ .ok v := by
  cases x with
  | ok v => simp
  | error e => simp

/-- Claim C2: both service-response parsers return exactly the JSON parsed from
the substring between the first left brace and the last right brace of the
response, and raise an error precisely when no such braces delimiter exists or
that substring is not valid JSON.  Holds for any `json.loads` model `jl` that
rejects the empty string (as Python's does). -/
theorem C2_json_located_between_braces {α : Type} (jl : String → Option α)
    (hjl : jl "" = none) (content : String) :
    (∀ v, parse_bank_statement jl content = .ok v ↔
        ∃ s, bracesSub content.data = some s ∧ jl (String.mk s) = some v) ∧
    (∀ v, analyze_recurring_payments jl content = .ok v ↔
        ∃ s, bracesSub content.data = some s ∧ jl (String.mk s) = some v) ∧
    ((∃ e, parse_bank_statement jl content = .error e) ↔
        (bracesSub content.data = none ∨
          ∃ s, bracesSub content.data = some s ∧ jl (String.mk s) = none)) ∧
    ((∃ e, analyze_recurring_payments jl content = .error e) ↔
        (bracesSub content.data = none ∨
          ∃ s, bracesSub content.data = some s ∧ jl (String.mk s) = none)) := by
  have hok1 : ∀ v, parse_bank_statement jl content = .ok v ↔
      ∃ s, bracesSub content.data = some s ∧ jl (String.mk s) = some v := by
    intro v
    have hwrap : parse_bank_statement jl content = .ok v ↔
        jsonClean "No valid JSON found in OpenAI response" jl content = .ok v := by
      cases h : jsonClean "No valid JSON found in OpenAI response" jl content with
      | ok w => simp [parse_bank_statement, h]
      | error e => simp [parse_bank_statement, h]
    exact hwrap.trans (jsonClean_ok_iff _ jl hjl content v)
  have hok2 : ∀ v, analyze_recurring_payments jl content = .ok v ↔
      ∃ s, bracesSub content.data = some s ∧ jl (String.mk s) = some v := by
    intro v
    have hwrap : analyze_recurring_payments jl content = .ok v ↔
        jsonClean "No valid JSON found in recurring payment analysis" jl content = .ok v := by
      cases h : jsonClean "No valid JSON found in recurring payment analysis" jl content with
      | ok w => simp [analyze_recurring_payments, h]
      | error e => simp [analyze_recurring_payments, h]
    exact hwrap.trans (jsonClean_ok_iff _ jl hjl content v)
  have herr : ∀ (x : Except String α),
      (∀ v, x = .ok v ↔ ∃ s, bracesSub content.data = some s ∧ jl (String.mk s) = some v) →
      ((∃ e, x = .error e) ↔
        (bracesSub content.data = none ∨
          ∃ s, bracesSub content.data = some s ∧ jl (String.mk s) = none)) := by
    intro x hx
    rw [except_error_iff_not_ok]
    constructor
    · intro hne
      cases hb : bracesSub content.data with
      | none => exact Or.inl rfl
      | some s =>
          cases hjs : jl (String.mk s) with
          | none => exact Or.inr ⟨s, rfl, hjs⟩
          | some w => exact absurd ((hx w).mpr ⟨s, hb, hjs⟩) (hne w)
    · intro hor v hv
      rcases (hx v).mp hv with ⟨s, hs, hv2⟩
      rcases hor with h1 | ⟨s2, hs2, hn2⟩
      · rw [h1] at hs
        exact absurd hs (by simp)
      · rw [hs2] at hs
        injection hs with hs
        subst hs
        rw [hv2] at hn2
        exact absurd hn2 (by simp)
  exact ⟨hok1, hok2, herr _ hok1, herr _ hok2⟩

/-- Witness for C2 at a concrete `json.loads` model and response. -/
theorem C2_json_located_between_braces_witness :
    (∀ v, parse_bank_statement (fun s => if s.length = 2 then some 7 else none)
        "xx\x7b\x7dyy" = .ok v ↔
        ∃ s, bracesSub ("xx\x7b\x7dyy").data = some s ∧
          (fun s => if s.length = 2 then some 7 else none) (String.mk s) = some v) ∧
    (∀ v, analyze_recurring_payments (fun s => if s.length = 2 then some 7 else none)
        "xx\x7b\x7dyy" = .ok v ↔
        ∃ s, bracesSub ("xx\x7b\x7dyy").data = some s ∧
          (fun s => if s.length = 2 then some 7 else none) (String.mk s) = some v) ∧
    ((∃ e, parse_bank_statement (fun s => if s.length = 2 then some 7 else none)
        "xx\x7b\x7dyy" = .error e) ↔
        (bracesSub ("xx\x7b\x7dyy").data = none ∨
          ∃ s, bracesSub ("xx\x7b\x7dyy").data = some s ∧
            (fun s => if s.length = 2 then some 7 else none) (String.mk s) = none)) ∧
    ((∃ e, analyze_recurring_payments (fun s => if s.length = 2 then some 7 else none)
        "xx\x7b\x7dyy" = .error e) ↔
        (bracesSub ("xx\x7b\x7dyy").data = none ∨
          ∃ s, bracesSub ("xx\x7b\x7dyy").data = some s ∧
            (fun s => if s.length = 2 then some 7 else none) (String.mk s) = none)) :=
  C2_json_located_between_braces (fun s => if s.length = 2 then some 7 else none)
    (by decide) "xx\x7b\x7dyy"

/-! ### bot.py : persistence of extracted transaction rows
(`handle_document` lines 267-291).  Dates are parsed with
`datetime.strptime(..., "%Y-%m-%d")`, amounts with `float(...)`; both raise on
malformed input and there is no per-row try/except, so the exception
propagates to the handler's outer `except` and the transaction commit at line
291 is never reached. -/

structure Date where
  year : Nat
  month : Nat
  day : Nat
deriving DecidableEq

def isLeapYear (y : Nat) : Bool := y % 4 = 0 && (y % 100 ≠ 0 || y % 400 = 0)

def daysInMonth (y m : Nat) : Nat :=
  if m = 2 then (if isLeapYear y then 29 else 28)
  else if m = 4 || m = 6 || m = 9 || m = 11 then 30
  else 31

/-- Split a character list at every dash (for the literal dashes of the
`%Y-%m-%d` format). -/
def splitDash : List Char → List (List Char)
  | [] => [[]]
  | c :: rest =>
      if c = '-' then [] :: splitDash rest
      else (splitDash rest).modifyHead (c :: ·)

/-- Model of `datetime.strptime(s, "%Y-%m-%d")`: the year is exactly four
digits, month and day are one or two digits in range, the whole string must be
consumed, and the day must exist in the given month (CPython validates the
calendar after the regex match). -/
def pyStrptime (s : String) : Except String Date :=
  match splitDash s.data with
  | [ys, ms, ds] =>
      if ys.length = 4 && ys.all isDigitCh
          && decide (1 ≤ ms.length) && decide (ms.length ≤ 2) && ms.all isDigitCh
          && decide (1 ≤ ds.length) && decide (ds.length ≤ 2) && ds.all isDigitCh then
        let y := decVal ys
        let m := decVal ms
        let d := decVal ds
        if 1 ≤ m && m ≤ 12 && 1 ≤ d && d ≤ 31 then
          if d ≤ daysInMonth y m then
            if 1 ≤ y then .ok ⟨y, m, d⟩
            else .error "year 0 is out of range"
          else .error "day is out of range for month"
        else .error ("time data " ++ s ++ " does not match format %Y-%m-%d")
      else .error ("time data " ++ s ++ " does not match format %Y-%m-%d")
  | _ => .error ("time data " ++ s ++ " does not match format %Y-%m-%d")

/-- A JSON scalar as it reaches `float(...)`: already numeric, or a string that
`float` must parse. -/
inductive PyVal where
  | num (q : ℚ)
  | str (s : String)
deriving DecidableEq

def digitsOnlyVal (cs : List Char) : Option Nat :=
  if cs ≠ [] && cs.all isDigitCh then some (decVal cs) else none

/-- Model of `float(s)` on strings, covering the plain decimal-literal forms
(optional sign, digits with an optional fractional part, surrounding
whitespace); anything else raises. -/
def parsePyFloatLit (s : String) : Option ℚ :=
  let cs := (s.data.dropWhile pyIsSpace).reverse.dropWhile pyIsSpace |>.reverse
  let core : List Char → Option ℚ := fun body =>
    let ip := body.takeWhile isDigitCh
    let rest := body.dropWhile isDigitCh
    match rest with
    | [] => if ip ≠ [] then some (decVal ip) else none
    | '.' :: fp =>
        if fp.all isDigitCh && (ip ≠ [] || fp ≠ []) then
          some ((decVal ip : ℚ) + (decVal fp : ℚ) / (10 ^ fp.length : ℚ))
        else none
    | _ => none
  match cs with
  | '-' :: body => (core body).map (fun q => -q)
  | '+' :: body => core body
  | body => core body

/-- Model of `float(x)` for a JSON value: numbers pass through verbatim,
strings go through the literal parser, anything unparsable raises. -/
def pyFloat : PyVal → Except String ℚ
  | .num q => .ok q
  | .str s =>
      match parsePyFloatLit s with
      | some q => .ok q
      | none => .error ("could not convert string to float: " ++ s)

/-- One transaction row as delivered by the extraction stage (a JSON dict;
every field may be absent). -/
structure TxRow where
  date : Option String
  description : Option String
  amount : Option PyVal
  category : Option String
deriving DecidableEq

/-- One persisted Transaction row (bot.py lines 270-276). -/
structure Transaction where
  date : Date
  description : String
  amount : ℚ
  category : String
deriving DecidableEq

/-- The body of one iteration of the persistence loop (bot.py lines 269-277):
`date=datetime.strptime(row.get('date', '1900-01-01'), '%Y-%m-%d')`,
`description=row.get('description', '')`,
`amount=float(row.get('amount', 0))`,
`category=row.get('category', 'Other')`. -/
def persistRow (r : TxRow) : Except String Transaction :=
  match pyStrptime (r.date.getD "1900-01-01") with
  | .error e => .error e
  | .ok d =>
      match pyFloat (r.amount.getD (.num 0)) with
      | .error e => .error e
      | .ok amt =>
          .ok { date := d, description := r.description.getD "",
                amount := amt, category := r.category.getD "Other" }

/-- The persistence loop over the extracted transaction list: the rows are
converted in order, and the first raising row aborts the run before the commit
at line 291, so on failure nothing is durably written. -/
def saveTransactions : List TxRow → Except String (List Transaction)
  | [] => .ok []
  | r :: rest =>
      match persistRow r with
      | .error e => .error e
      | .ok t =>
          match saveTransactions rest with
          | .error e => .error e
          | .ok ts => .ok (t :: ts)

/-- One recurring-payment row from the analysis JSON (bot.py lines 281-289). -/
structure RecRow where
  description : Option String
  amount : Option PyVal
  frequency : Option String
  category : Option String
deriving DecidableEq

structure RecurringPaymentRow where
  description : String
  amount : ℚ
  frequency : String
  category : String
deriving DecidableEq

def persistRecRow (r : RecRow) : Except String RecurringPaymentRow :=
  match pyFloat (r.amount.getD (.num 0)) with
  | .error e => .error e
  | .ok amt =>
      .ok { description := r.description.getD "", amount := amt,
            frequency := r.frequency.getD "monthly", category := r.category.getD "Other" }

def saveRecurring : List RecRow → Except String (List RecurringPaymentRow)
  | [] => .ok []
  | r :: rest =>
      match persistRecRow r with
      | .error e => .error e
      | .ok t =>
          match saveRecurring rest with
          | .error e => .error e
          | .ok ts => .ok (t :: ts)

def okB {β : Type} : Except String β → Bool
  | .ok _ => true
  | .error _ => false

/-- Shape of a successful row conversion: both fallible conversions succeeded
and the row fields (with their defaults) were copied into the Transaction. -/
theorem persistRow_ok_shape (r : TxRow) (t : Transaction) (h : persistRow r = .ok t) :
    ∃ d q, pyStrptime (r.date.getD "1900-01-01") = .ok d ∧
      pyFloat (r.amount.getD (.num 0)) = .ok q ∧
      t = ⟨d, r.description.getD "", q, r.category.getD "Other"⟩ := by
  cases hd : pyStrptime (r.date.getD "1900-01-01") with
  | error e => rw [persistRow, hd] at h; exact absurd h (by simp)
  | ok d =>
      cases hf : pyFloat (r.amount.getD (.num 0)) with
      | error e =>
          rw [persistRow, hd, hf] at h
          exact absurd h (by simp)
      | ok q =>
          rw [persistRow, hd, hf] at h
          injection h with h
          exact ⟨d, q, rfl, rfl, h.symm⟩

/-- Rows used by the C1 counterexample: nine well-formed rows and one row
whose date is unparsable. -/
def c1Rows : List TxRow :=
  [⟨some "2024-01-01", some "COFFEE SHOP", some (.num (-5)), some "dining"⟩,
   ⟨some "2024-01-02", some "GROCERY", some (.num (-45)), some "groceries"⟩,
   ⟨some "2024-01-03", some "SALARY", some (.num 2000), some "income"⟩,
   ⟨some "2024-01-04", some "GAS", some (.num (-30)), some "gas"⟩,
   ⟨some "not-a-date", some "BROKEN ROW", some (.num (-1)), some "other"⟩,
   ⟨some "2024-01-06", some "RENT", some (.num (-1200)), some "rent"⟩,
   ⟨some "2024-01-07", some "NETFLIX", some (.num (-16)), some "entertainment"⟩,
   ⟨some "2024-01-08", some "REFUND", some (.num 12), some "other"⟩,
   ⟨some "2024-01-09", some "PHARMACY", some (.num (-8)), some "health"⟩,
   ⟨some "2024-01-10", some "UTILITIES", some (.num (-90)), some "utilities"⟩]

/-- Claim C1 counterexample: on a batch of ten rows of which exactly one has
an unparsable date, persistence does NOT succeed with the nine valid rows —
the strptime exception aborts the whole batch before the commit. -/
theorem C1_counterexample :
    c1Rows.length = 10 ∧
    (c1Rows.filter (fun r => okB (persistRow r))).length = 9 ∧
    okB (saveTransactions c1Rows) = false := by decide

/-- Claim C1 (amended): a row whose date fails to parse in `YYYY-MM-DD`
format, or whose amount is not numeric, does not get skipped — the exception
aborts the whole batch, and no Transaction rows from the batch are committed
(the loop raises before the commit). -/
theorem C1_amended_bad_row_aborts_batch (rows : List TxRow)
    (h : ∃ r ∈ rows, okB (persistRow r) = false) :
    ∃ e, saveTransactions rows = .error e := by
  induction rows with
  | nil => rcases h with ⟨r, hr, _⟩; simp at hr
  | cons a rest ih =>
      rcases h with ⟨r, hr, hbad⟩
      rcases List.mem_cons.mp hr with h1 | h1
      · subst h1
        cases hp : persistRow r with
        | error e => exact ⟨e, by simp [saveTransactions, hp]⟩
        | ok t => rw [hp] at hbad; simp [okB] at hbad
      · rcases ih ⟨r, h1, hbad⟩ with ⟨e, herr⟩
        cases hp : persistRow a with
        | error e2 => exact ⟨e2, by simp [saveTransactions, hp]⟩
        | ok t => exact ⟨e, by simp [saveTransactions, hp, herr]⟩

/-- Witness for the amended C1 at a concrete batch. -/
theorem C1_amended_bad_row_aborts_batch_witness :
    ∃ e, saveTransactions
      [⟨some "not-a-date", some "BROKEN ROW", some (.num (-1)), some "other"⟩] = .error e :=
  C1_amended_bad_row_aborts_batch
    [⟨some "not-a-date", some "BROKEN ROW", some (.num (-1)), some "other"⟩]
    ⟨⟨some "not-a-date", some "BROKEN ROW", some (.num (-1)), some "other"⟩,
      by decide, by decide⟩

/-- Claim C5: persistence never alters amounts — when the batch commits, each
written Transaction's amount equals the source row's numeric value verbatim
(debits stay negative, credits stay positive). -/
theorem C5_persistence_preserves_amounts (rows : List TxRow) (txs : List Transaction)
    (h : saveTransactions rows = .ok txs) :
    txs.length = rows.length ∧
    ∀ i (hi : i < rows.length) (hi2 : i < txs.length) (q : ℚ),
      (rows.get ⟨i, hi⟩).amount = some (PyVal.num q) → (txs.get ⟨i, hi2⟩).amount = q := by
  induction rows generalizing txs with
  | nil =>
      rw [saveTransactions] at h
      injection h with h
      subst h
      exact ⟨rfl, by intro i hi; simp at hi⟩
  | cons r rest ih =>
      cases hp : persistRow r with
      | error e => rw [saveTransactions, hp] at h; exact absurd h (by simp)
      | ok t =>
          cases hs : saveTransactions rest with
          | error e =>
              rw [saveTransactions, hp, hs] at h
              exact absurd h (by simp)
          | ok ts =>
              rw [saveTransactions, hp, hs] at h
              injection h with h
              subst h
              rcases ih ts hs with ⟨hlen, hidx⟩
              refine ⟨by simp [hlen], ?_⟩
              intro i hi hi2 q hq
              cases i with
              | zero =>
                  simp at hq
                  rcases persistRow_ok_shape r t hp with ⟨d, q2, _, hfq, ht⟩
                  rw [hq] at hfq
                  simp [pyFloat] at hfq
                  subst ht
                  simpa using hfq.symm
              | succ j =>
                  simp at hq ⊢
                  have hj1 : j < rest.length := by simp at hi; omega
                  have hj2 : j < ts.length := by simp at hi2; omega
                  exact hidx j hj1 hj2 q hq

def c5Rows : List TxRow :=
  [⟨some "2024-01-15", some "GROCERY", some (.num (-(4567/100))), some "groceries"⟩,
   ⟨some "2024-01-20", some "DEPOSIT", some (.num (1500)), some "income"⟩]

def c5Txs : List Transaction :=
  [⟨⟨2024, 1, 15⟩, "GROCERY", -(4567/100), "groceries"⟩,
   ⟨⟨2024, 1, 20⟩, "DEPOSIT", 1500, "income"⟩]

/-- Witness for C5 at a concrete committed batch. -/
theorem C5_persistence_preserves_amounts_witness :
    c5Txs.length = c5Rows.length ∧
    ∀ i (hi : i < c5Rows.length) (hi2 : i < c5Txs.length) (q : ℚ),
      (c5Rows.get ⟨i, hi⟩).amount = some (PyVal.num q) →
        (c5Txs.get ⟨i, hi2⟩).amount = q :=
  C5_persistence_preserves_amounts c5Rows c5Txs (by rfl)

/-- Claim C9: a row with a missing field is not skipped — it is inserted with
the fixed defaults: date `1900-01-01`, description empty, amount `0.0`,
category `Other`. -/
theorem C9_missing_fields_defaulted (r : TxRow) (t : Transaction)
    (h : persistRow r = .ok t) :
    (r.date = none → t.date = ⟨1900, 1, 1⟩) ∧
    (r.description = none → t.description = "") ∧
    (r.amount = none → t.amount = 0) ∧
    (r.category = none → t.category = "Other") ∧
    persistRow ⟨none, none, none, none⟩ = .ok ⟨⟨1900, 1, 1⟩, "", 0, "Other"⟩ := by
  rcases persistRow_ok_shape r t h with ⟨d, q, hdate, hamt, ht⟩
  subst ht
  refine ⟨?_, ?_, ?_, ?_, by rfl⟩
  · intro hn
    rw [hn] at hdate
    have hdv : pyStrptime ((none : Option String).getD "1900-01-01") =
        .ok ⟨1900, 1, 1⟩ := by rfl
    rw [hdv] at hdate
    injection hdate with hdate
    simp [hdate.symm]
  · intro hn; simp [hn]
  · intro hn
    rw [hn] at hamt
    have hfv : pyFloat ((none : Option PyVal).getD (.num 0)) = .ok 0 := by rfl
    rw [hfv] at hamt
    injection hamt with hamt
    simp [hamt.symm]
  · intro hn; simp [hn]

/-- Witness for C9 at the all-fields-missing row. -/
theorem C9_missing_fields_defaulted_witness :
    ((none : Option String) = none → (⟨⟨1900, 1, 1⟩, "", 0, "Other"⟩ : Transaction).date = ⟨1900, 1, 1⟩) ∧
    ((none : Option String) = none → (⟨⟨1900, 1, 1⟩, "", 0, "Other"⟩ : Transaction).description = "") ∧
    ((none : Option PyVal) = none → (⟨⟨1900, 1, 1⟩, "", 0, "Other"⟩ : Transaction).amount = 0) ∧
    ((none : Option String) = none → (⟨⟨1900, 1, 1⟩, "", 0, "Other"⟩ : Transaction).category = "Other") ∧
    persistRow ⟨none, none, none, none⟩ = .ok ⟨⟨1900, 1, 1⟩, "", 0, "Other"⟩ :=
  C9_missing_fields_defaulted ⟨none, none, none, none⟩ ⟨⟨1900, 1, 1⟩, "", 0, "Other"⟩ (by rfl)

/-! ### Currency rendering.  Money is modelled exactly as integer cents; the
Python format specs `:.2f` (two decimals) and `:,.2f` (two decimals with
thousands separators) become `fmtFixed2` / `fmtComma2`, and `abs(...)` becomes
`pyAbsInt`. -/

def pyAbsInt (v : Int) : Int := if v < 0 then -v else v

def pad2 (n : Nat) : String := if n < 10 then "0" ++ natToDec n else natToDec n

def commaGroupAux : Nat → List Char → List Char
  | _, [] => []
  | k, c :: rest =>
      if k = 3 then ',' :: c :: commaGroupAux 1 rest
      else c :: commaGroupAux (k + 1) rest

/-- Insert thousands separators into a decimal digit string. -/
def commaGroup (s : String) : String :=
  String.mk ((commaGroupAux 0 s.data.reverse).reverse)

/-- Python format `:.2f` applied to a value held in cents. -/
def fmtFixed2 (cents : Int) : String :=
  (if cents < 0 then "-" else "") ++ natToDec (cents.natAbs / 100) ++ "."
    ++ pad2 (cents.natAbs % 100)

/-- Python format `:,.2f` applied to a value held in cents. -/
def fmtComma2 (cents : Int) : String :=
  (if cents < 0 then "-" else "") ++ commaGroup (natToDec (cents.natAbs / 100)) ++ "."
    ++ pad2 (cents.natAbs % 100)

/-! ### pdf_parser.py : `format_summary_message` (lines 254-302).
Decorative emoji glyphs from the source are transcribed as short ASCII tags;
the verified properties (sign handling and determinism) do not depend on the
glyph bytes. -/

structure RecPayment where
  merchant_name : Option String
  category : Option String
  average_amount : Option Int
  frequency : Option String
  occurrences : Option Nat
deriving DecidableEq

structure RecSummary where
  total_recurring_amount : Option Int
  recurring_payment_count : Option Nat
  largest_recurring_payment : Option String
deriving DecidableEq

structure RecAnalysis where
  summary : RecSummary
  recurring_payments : List RecPayment
deriving DecidableEq

/-- The fixed category-to-icon lookup with its generic default. -/
def categoryEmoji (category : String) : String :=
  let k := pyLower category
  if k = "utilities" then "[zap]"
  else if k = "entertainment" then "[clapper]"
  else if k = "groceries" then "[cart]"
  else if k = "transport" then "[car]"
  else if k = "insurance" then "[shield]"
  else if k = "subscription" then "[phone]"
  else if k = "rent" then "[house]"
  else if k = "dining" then "[plate]"
  else "[card]"

/-- One iteration of the per-payment loop (pdf_parser.py lines 275-297). -/
def payLine (p : RecPayment) : String :=
  let merchant := p.merchant_name.getD "Unknown"
  let amount := pyAbsInt (p.average_amount.getD 0)
  let frequency := p.frequency.getD "unknown"
  let category := p.category.getD "uncategorized"
  let occurrences := p.occurrences.getD 0
  categoryEmoji category ++ " **" ++ merchant ++ "**\n"
    ++ "   Amount: $" ++ fmtFixed2 amount ++ " (" ++ frequency ++ ")\n"
    ++ "   Category: " ++ pyTitle category ++ "\n"
    ++ "   Occurrences: " ++ natToDec occurrences ++ "\n\n"

/-- Model of `PDFParser.format_summary_message`. -/
def format_summary_message (a : RecAnalysis) : String :=
  let summary := a.summary
  let base :=
    "[chart] **Recurring Payments Summary**\n\n"
      ++ "[money] Total monthly recurring: $"
      ++ fmtFixed2 (pyAbsInt (summary.total_recurring_amount.getD 0)) ++ "\n"
      ++ "[clipboard] Number of recurring payments: "
      ++ natToDec (summary.recurring_payment_count.getD 0) ++ "\n"
      ++ (match summary.largest_recurring_payment with
          | some s => if s = "" then "" else "[trophy] Largest payment: " ++ s ++ "\n"
          | none => "")
      ++ "\n" ++ String.mk (List.replicate 30 '=') ++ "\n\n"
  if a.recurring_payments.isEmpty then
    base ++ "No recurring payments detected in this statement.\n"
  else
    base ++ "[memo] **Detailed Breakdown:**\n\n"
      ++ String.join (a.recurring_payments.map payLine)

/-! ### bot.py : `send_analysis_results` (lines 327-363). -/

structure TxSummary where
  total_transactions : Option Nat
  total_debits : Option Int
  total_credits : Option Int
  net_flow : Option Int
  period : Option String
deriving DecidableEq

/-- The main summary message assembled at bot.py lines 333-342.  Note that
`total_debits` goes through `abs(...)` but `total_credits` and `net_flow` are
formatted with their sign. -/
def sendSummaryText (summary : TxSummary) (recurringCount : Nat) : String :=
  "[check] *Analysis Complete!* [party]\n\n"
    ++ "[chart] *Statement Summary*\n"
    ++ "[card] Total Transactions: "
    ++ (match summary.total_transactions with | some n => natToDec n | none => "N/A") ++ "\n"
    ++ "[money] Total Debits: $" ++ fmtComma2 (pyAbsInt (summary.total_debits.getD 0)) ++ "\n"
    ++ "[bill] Total Credits: $" ++ fmtComma2 (summary.total_credits.getD 0) ++ "\n"
    ++ "[trendup] Net Flow: $" ++ fmtComma2 (summary.net_flow.getD 0) ++ "\n\n"
    ++ "[cycle] Recurring Payments: " ++ natToDec recurringCount ++ "\n"
    ++ "[calendar] Period: " ++ summary.period.getD "N/A"

/-- The top-spending-categories message (bot.py lines 359-361): every amount
goes through `abs(...)`. -/
def topCategoriesText (top_categories : List (String × Int)) : String :=
  (top_categories.take 5).foldl
    (fun acc c => acc ++ "- " ++ c.1 ++ ": $" ++ fmtComma2 (pyAbsInt c.2) ++ "\n")
    "[tag] *Top Spending Categories*\n\n"

/-- Does the text contain a dollar sign immediately followed by a minus sign
(a bare negative currency value)? -/
def hasDollarNeg : List Char → Bool
  | [] => false
  | '$' :: '-' :: _ => true
  | _ :: rest => hasDollarNeg rest

def absPay (p : RecPayment) : RecPayment :=
  { p with average_amount := p.average_amount.map pyAbsInt }

def absRecAnalysis (a : RecAnalysis) : RecAnalysis :=
  { summary := { a.summary with
      total_recurring_amount := a.summary.total_recurring_amount.map pyAbsInt },
    recurring_payments := a.recurring_payments.map absPay }

def absDebits (s : TxSummary) : TxSummary :=
  { s with total_debits := s.total_debits.map pyAbsInt }

theorem pyAbsInt_idem (v : Int) : pyAbsInt (pyAbsInt v) = pyAbsInt v := by
  simp only [pyAbsInt]
  split_ifs <;> omega

theorem optAbsGetD (o : Option Int) : (o.map pyAbsInt).getD 0 = pyAbsInt (o.getD 0) := by
  cases o <;> simp [pyAbsInt]

theorem payLine_abs (p : RecPayment) : payLine (absPay p) = payLine p := by
  simp [payLine, absPay, optAbsGetD, pyAbsInt_idem]

/-- Claim C3 counterexample: with a negative net flow the summary text of
`send_analysis_results` contains a bare negative currency value `$-...`
(bot.py line 339 formats `net_flow` without `abs`). -/
theorem C3_counterexample :
    hasDollarNeg (sendSummaryText ⟨some 3, some (-500), some 1000, some (-100),
      some "Jan 2024"⟩ 0).data = true := by decide

/-- Claim C3 (amended): in `format_summary_message` every currency value is
rendered as an absolute value with two decimals and a currency prefix (the
output is invariant under replacing the money fields by their absolute
values), and in `send_analysis_results` the total debits and the top-category
amounts are likewise absolute — but total credits and net flow are rendered
with their sign, so a negative net flow or negative total credits does appear
as a bare negative number. -/
theorem C3_amended_currency_abs_rendering :
    (∀ a : RecAnalysis, format_summary_message (absRecAnalysis a) = format_summary_message a) ∧
    (∀ (s : TxSummary) (rc : Nat), sendSummaryText (absDebits s) rc = sendSummaryText s rc) ∧
    (∀ cats : List (String × Int),
      topCategoriesText (cats.map (fun c => (c.1, pyAbsInt c.2))) = topCategoriesText cats) := by
  refine ⟨?_, ?_, ?_⟩
  · intro a
    have hmap : ∀ l : List RecPayment, (l.map absPay).map payLine = l.map payLine := by
      intro l
      induction l with
      | nil => rfl
      | cons p rest ih => simp only [List.map_cons, payLine_abs, ih]
    have hjoin : ∀ l : List RecPayment,
        String.join ((l.map absPay).map payLine) = String.join (l.map payLine) := by
      intro l
      rw [hmap l]
    cases hl : a.recurring_payments with
    | nil =>
        simp [format_summary_message, absRecAnalysis, hl, optAbsGetD, pyAbsInt_idem]
    | cons p rest =>
        simp [format_summary_message, absRecAnalysis, hl, optAbsGetD, pyAbsInt_idem]
        have := hjoin (p :: rest)
        simp [hl] at this
        simp [this]
  · intro s rc
    simp [sendSummaryText, absDebits, optAbsGetD, pyAbsInt_idem]
  · intro cats
    have hfold : ∀ (l : List (String × Int)) (acc : String),
        (l.map (fun c => (c.1, pyAbsInt c.2))).foldl
            (fun acc c => acc ++ "- " ++ c.1 ++ ": $" ++ fmtComma2 (pyAbsInt c.2) ++ "\n") acc
          = l.foldl
            (fun acc c => acc ++ "- " ++ c.1 ++ ": $" ++ fmtComma2 (pyAbsInt c.2) ++ "\n") acc := by
      intro l
      induction l with
      | nil => intro acc; rfl
      | cons c rest ih => intro acc; simp [pyAbsInt_idem, ih]
    simp only [topCategoriesText]
    rw [← List.map_take]
    exact hfold (cats.take 5) _

/-- Claim C8: the summary formatter is deterministic — it is a pure function
of its input, so running it twice on the same analysis yields byte-identical
output. -/
theorem C8_formatter_deterministic (a : RecAnalysis) :
    format_summary_message a = format_summary_message a := rfl

/-! ### pdf_parser.py : `extract_text_from_pdf` (lines 84-106).
Each page's vision result is an arbitrary string; the code prepends
`"\n=== PAGE i ===\n"` (1-based), appends `"\n"`, concatenates in page order
and finally strips surrounding whitespace (Python `str.strip`). -/

/-- Right-trim of Python `str.strip`, written so that it recurses from the
left: a character survives iff something non-whitespace follows at or after
it. -/
def rtrimL : List Char → List Char
  | [] => []
  | c :: cs =>
      match rtrimL cs with
      | [] => if pyIsSpace c then [] else [c]
      | x :: xs => c :: x :: xs

def ltrimL (cs : List Char) : List Char := cs.dropWhile pyIsSpace

/-- Model of Python `str.strip()` (whitespace at both ends). -/
def pyStrip (s : String) : String := String.mk (ltrimL (rtrimL s.data))

/-- The per-page block `"\n=== PAGE i ===\n" + page_text + "\n"`. -/
def pageBlock (i : Nat) (t : String) : String :=
  "\n=== PAGE " ++ natToDec i ++ " ===\n" ++ t ++ "\n"

/-- The accumulation loop `for i, image in enumerate(images, 1): all_text += ...`. -/
def concatPages (i : Nat) : List String → String
  | [] => ""
  | t :: rest => pageBlock i t ++ concatPages (i + 1) rest

/-- Model of `PDFParser.extract_text_from_pdf`, with the pages' vision outputs
as input: raises when the document has no pages, otherwise returns the
stripped concatenation of the marked page blocks. -/
def extract_text_from_pdf (pages : List String) : Except String String :=
  match pages with
  | [] => .error "No pages found in PDF"
  | _ => .ok (pyStrip (concatPages 1 pages))

/-! ### bot.py : `handle_document` (lines 199-322) as an event trace.
The external stage outcomes (Telegram download, per-page vision calls, the
parse-service response, `json.loads`) are oracles passed in as parameters;
the handler's own control flow — validation order, temporary-file lifecycle,
service invocations, durable writes, replies — is the embedded code. -/

/-- `temp_file_path = "./" + document.file_name` (bot.py line 240).  The
owner id is in scope in the handler but does not enter the path. -/
def tempFilePath (ownerId fileName : String) : String := "./" ++ fileName

/-- The analysis dict consumed by persistence and presentation. -/
structure AnalysisResult where
  transactions : List TxRow
  recurring_payments : List RecRow
  summary : TxSummary
  top_categories : List (String × Int)
deriving DecidableEq

/-- Observable events of one handler run. -/
inductive Ev where
  | reply (msg : String)
  | tempCreate (path : String)
  | svcCall
  | dbWriteStatement
  | dbWriteTx (t : Transaction)
  | dbWriteRecurring (r : RecurringPaymentRow)
  | tempRemove (path : String)
deriving DecidableEq

def processingErrorReply : String :=
  "Error Processing Document - Sorry, I could not analyze your bank statement."

/-- Model of `BankStatementBot.handle_document`.  Validation replies happen
before any resource is touched; inside the `try` block the temporary file is
created by the download, each page costs one vision call, parsing costs one
more call, the statement row is committed before the per-row loops, and both
the success path (line 295) and the `except` path (line 320) remove the
temporary file. -/
def handle_document (hasDoc : Bool) (ownerId fileName : String) (fileSize : Nat)
    (downloadOk : Bool) (pagesRes : Except String (List String))
    (svcResponse : String → String) (jl : String → Option AnalysisResult) : List Ev :=
  if ¬ hasDoc then [.reply "Please send a valid document."]
  else if ¬ trailsWith (".pdf".data) (pyLower fileName).data then
    [.reply "Please upload a PDF file. Supported format: PDF bank statements only"]
  else if fileSize > 20 * 1024 * 1024 then
    [.reply "File too large! Maximum size: 20MB"]
  else
    let p := tempFilePath ownerId fileName
    .reply "Processing your bank statement..." ::
    (if ¬ downloadOk then [.reply processingErrorReply, .tempRemove p]
     else
       .tempCreate p ::
       (match pagesRes with
        | .error _ => [.reply processingErrorReply, .tempRemove p]
        | .ok pages =>
            pages.map (fun _ => Ev.svcCall) ++
            (match extract_text_from_pdf pages with
             | .error _ => [.reply processingErrorReply, .tempRemove p]
             | .ok raw =>
                 Ev.svcCall ::
                 (match parse_bank_statement jl (svcResponse raw) with
                  | .error _ => [.reply processingErrorReply, .tempRemove p]
                  | .ok analysis =>
                      Ev.dbWriteStatement ::
                      (match saveTransactions analysis.transactions with
                       | .error _ => [.reply processingErrorReply, .tempRemove p]
                       | .ok txs =>
                           match saveRecurring analysis.recurring_payments with
                           | .error _ => [.reply processingErrorReply, .tempRemove p]
                           | .ok recs =>
                               txs.map Ev.dbWriteTx ++ recs.map Ev.dbWriteRecurring ++
                               [.tempRemove p,
                                .reply (sendSummaryText analysis.summary
                                  analysis.recurring_payments.length)] ++
                               (if analysis.top_categories.isEmpty then []
                                else [.reply (topCategoriesText analysis.top_categories)]))))))

/-- Replay a trace against a file-system state (set of existing paths):
`tempCreate` writes the path, `tempRemove` is `os.remove`. -/
def runFs (fs : List String) : List Ev → List String
  | [] => fs
  | e :: rest =>
      runFs (match e with
             | .tempCreate q => q :: fs
             | .tempRemove q => fs.filter (fun x => x ≠ q)
             | _ => fs) rest

theorem runFs_append (fs : List String) (a b : List Ev) :
    runFs fs (a ++ b) = runFs (runFs fs a) b := by
  induction a generalizing fs with
  | nil => rfl
  | cons e a ih => simp [runFs, ih]

theorem runFs_svc (l : List String) (fs : List String) :
    runFs fs (l.map (fun _ => Ev.svcCall)) = fs := by
  induction l generalizing fs with
  | nil => rfl
  | cons x l ih =>
      simp only [List.map_cons, runFs]
      exact ih fs

theorem runFs_tx (l : List Transaction) (fs : List String) :
    runFs fs (l.map Ev.dbWriteTx) = fs := by
  induction l generalizing fs with
  | nil => rfl
  | cons x l ih => simp [runFs, ih]

theorem runFs_rec (l : List RecurringPaymentRow) (fs : List String) :
    runFs fs (l.map Ev.dbWriteRecurring) = fs := by
  induction l generalizing fs with
  | nil => rfl
  | cons x l ih => simp [runFs, ih]

theorem notMem_filter_self (fs : List String) (p : String) :
    p ∉ fs.filter (fun x => x ≠ p) := by
  intro h
  have := List.mem_filter.mp h
  simp at this

/-- Claim C7: an upload whose filename does not end in `.pdf`
(case-insensitively) or whose size exceeds the 20 MB ceiling is rejected
before the pipeline starts: the run is a single reply — no temporary file, no
service call, no database write — and the file system is untouched. -/
theorem C7_invalid_upload_rejected (ownerId fileName : String) (fileSize : Nat)
    (downloadOk : Bool) (pagesRes : Except String (List String))
    (svcResponse : String → String) (jl : String → Option AnalysisResult)
    (hbad : trailsWith (".pdf".data) (pyLower fileName).data = false ∨
      fileSize > 20 * 1024 * 1024) :
    (∃ m, handle_document true ownerId fileName fileSize downloadOk pagesRes
        svcResponse jl = [.reply m]) ∧
    ∀ fs, runFs fs (handle_document true ownerId fileName fileSize downloadOk
        pagesRes svcResponse jl) = fs := by
  have htr : ∃ m, handle_document true ownerId fileName fileSize downloadOk pagesRes
      svcResponse jl = [.reply m] := by
    rcases hbad with hext | hsize
    · exact ⟨"Please upload a PDF file. Supported format: PDF bank statements only",
        by simp [handle_document, hext]⟩
    · by_cases hext : trailsWith (".pdf".data) (pyLower fileName).data = true
      · exact ⟨"File too large! Maximum size: 20MB",
          by simp [handle_document, hext, hsize]⟩
      · exact ⟨"Please upload a PDF file. Supported format: PDF bank statements only",
          by simp [handle_document, hext]⟩
  rcases htr with ⟨m, hm⟩
  refine ⟨⟨m, hm⟩, fun fs => ?_⟩
  rw [hm]
  rfl

/-- Witness for C7 at a concrete non-PDF upload. -/
theorem C7_invalid_upload_rejected_witness :
    (∃ m, handle_document true "1001" "statement.txt" 0 true (.ok [])
        (fun _ => "") (fun _ => none) = [.reply m]) ∧
    runFs ["./keep.txt"] (handle_document true "1001" "statement.txt" 0 true (.ok [])
        (fun _ => "") (fun _ => none)) = ["./keep.txt"] := by
  have h := C7_invalid_upload_rejected "1001" "statement.txt" 0 true (.ok [])
    (fun _ => "") (fun _ => none) (Or.inl (by decide))
  exact ⟨h.1, h.2 ["./keep.txt"]⟩

/-- Claim C6 counterexample: the temporary path is NOT namespaced by the owner
id — two different owners uploading the same filename get the same path. -/
theorem C6_counterexample :
    tempFilePath "1001" "statement.pdf" = tempFilePath "2002" "statement.pdf" ∧
      "1001" ≠ "2002" := by
  exact ⟨rfl, by decide⟩

/-- Claim C6 (amended): the document is stored at `./<filename>` — the path
depends only on the filename, not on the owner id, so distinct owners
uploading the same filename share a path — and whenever the temporary file is
created during a run, it is removed again on every exit path, success and
failure alike. -/
theorem C6_amended_path_and_unconditional_cleanup (hasDoc : Bool)
    (ownerId fileName : String) (fileSize : Nat) (downloadOk : Bool)
    (pagesRes : Except String (List String)) (svcResponse : String → String)
    (jl : String → Option AnalysisResult) (fs : List String)
    (hcreated : Ev.tempCreate (tempFilePath ownerId fileName) ∈
      handle_document hasDoc ownerId fileName fileSize downloadOk pagesRes svcResponse jl) :
    (∀ o1 o2 f, tempFilePath o1 f = tempFilePath o2 f) ∧
    tempFilePath ownerId fileName ∉
      runFs fs (handle_document hasDoc ownerId fileName fileSize downloadOk
        pagesRes svcResponse jl) := by
  refine ⟨fun o1 o2 f => rfl, ?_⟩
  by_cases h1 : hasDoc
  case neg =>
      simp [handle_document, h1] at hcreated
  by_cases h2 : trailsWith (".pdf".data) (pyLower fileName).data = true
  case neg =>
      simp [handle_document, h1, h2] at hcreated
  by_cases h3 : fileSize > 20 * 1024 * 1024
  case pos =>
      simp [handle_document, h1, h2, h3] at hcreated
  by_cases h4 : downloadOk
  case neg =>
      simp [handle_document, h1, h2, h3, h4, runFs, notMem_filter_self] at hcreated ⊢
  cases pagesRes with
  | error e =>
      simp [handle_document, h1, h2, h3, h4, runFs, notMem_filter_self]
  | ok pages =>
      cases hex : extract_text_from_pdf pages with
      | error e =>
          simp [handle_document, h1, h2, h3, h4, hex, runFs, runFs_append, runFs_svc,
            notMem_filter_self]
      | ok raw =>
          cases hp : parse_bank_statement jl (svcResponse raw) with
          | error e =>
              simp [handle_document, h1, h2, h3, h4, hex, hp, runFs, runFs_append,
                runFs_svc, notMem_filter_self]
          | ok analysis =>
              cases hst : saveTransactions analysis.transactions with
              | error e =>
                  simp [handle_document, h1, h2, h3, h4, hex, hp, hst, runFs,
                    runFs_append, runFs_svc, notMem_filter_self]
              | ok txs =>
                  cases hsr : saveRecurring analysis.recurring_payments with
                  | error e =>
                      simp [handle_document, h1, h2, h3, h4, hex, hp, hst, hsr, runFs,
                        runFs_append, runFs_svc, notMem_filter_self]
                  | ok recs =>
                      by_cases htc : analysis.top_categories.isEmpty
                      · simp [handle_document, h1, h2, h3, h4, hex, hp, hst, hsr, htc,
                          runFs, runFs_append, runFs_svc, runFs_tx, runFs_rec,
                          notMem_filter_self]
                      · simp [handle_document, h1, h2, h3, h4, hex, hp, hst, hsr, htc,
                          runFs, runFs_append, runFs_svc, runFs_tx, runFs_rec,
                          notMem_filter_self]

/-- Witness for the amended C6 at a concrete failing run (the parse stage
yields no JSON, the `except` path still removes the file). -/
theorem C6_amended_path_and_unconditional_cleanup_witness :
    (∀ o1 o2 f, tempFilePath o1 f = tempFilePath o2 f) ∧
    tempFilePath "1001" "jan.pdf" ∉
      runFs ["./other.pdf"] (handle_document true "1001" "jan.pdf" 1024 true
        (.ok ["page one text"]) (fun _ => "no json here") (fun _ => none)) :=
  C6_amended_path_and_unconditional_cleanup true "1001" "jan.pdf" 1024 true
    (.ok ["page one text"]) (fun _ => "no json here") (fun _ => none) ["./other.pdf"]
    (by decide)

/-! ### Claim C4 toolkit: line decomposition of the concatenated page blob. -/

/-- Split at every newline (Python `str.split`-like; always nonempty). -/
def splitNl : List Char → List (List Char)
  | [] => [[]]
  | c :: rest =>
      if c = '\n' then [] :: splitNl rest
      else (splitNl rest).modifyHead (c :: ·)

/-- Join lines with single newlines (left inverse of `splitNl`). -/
def nlJoin : List (List Char) → List Char
  | [] => []
  | [l] => l
  | l :: rest => l ++ '\n' :: nlJoin rest

theorem splitNl_ne_nil (cs : List Char) : splitNl cs ≠ [] := by
  induction cs with
  | nil => simp [splitNl]
  | cons c rest ih =>
      rw [splitNl]
      by_cases hc : c = '\n'
      · simp [hc]
      · cases hs : splitNl rest with
        | nil => exact absurd hs ih
        | cons h t => simp [hc, hs, List.modifyHead]

theorem nlJoin_cons_of_ne_nil (l : List Char) (L : List (List Char)) (h : L ≠ []) :
    nlJoin (l :: L) = l ++ '\n' :: nlJoin L := by
  cases L with
  | nil => exact absurd rfl h
  | cons m M => rfl

theorem mem_splitNl_no_nl : ∀ (cs l : List Char), l ∈ splitNl cs → '\n' ∉ l := by
  intro cs
  induction cs with
  | nil =>
      intro l hl
      simp [splitNl] at hl
      simp [hl]
  | cons c rest ih =>
      intro l hl
      rw [splitNl] at hl
      by_cases hc : c = '\n'
      · rw [if_pos hc] at hl
        rcases List.mem_cons.mp hl with h1 | h1
        · simp [h1]
        · exact ih l h1
      · rw [if_neg hc] at hl
        cases hs : splitNl rest with
        | nil => exact absurd hs (splitNl_ne_nil rest)
        | cons h t =>
            rw [hs] at hl
            simp only [List.modifyHead] at hl
            rcases List.mem_cons.mp hl with h1 | h1
            · subst h1
              intro hmem
              rcases List.mem_cons.mp hmem with h2 | h2
              · exact hc h2.symm
              · exact ih h (by rw [hs]; exact List.mem_cons_self h t) h2
            · exact ih l (by rw [hs]; exact List.mem_cons_of_mem h h1)

theorem splitNl_no_nl (l : List Char) (h : '\n' ∉ l) : splitNl l = [l] := by
  induction l with
  | nil => rfl
  | cons c rest ih =>
      have hc : c ≠ '\n' := fun he => h (he ▸ List.mem_cons_self c rest)
      have hr : '\n' ∉ rest := fun hm => h (List.mem_cons_of_mem c hm)
      rw [splitNl, if_neg hc, ih hr]
      rfl

theorem splitNl_append_nl (l ys : List Char) (h : '\n' ∉ l) :
    splitNl (l ++ '\n' :: ys) = l :: splitNl ys := by
  induction l with
  | nil => simp [splitNl]
  | cons c rest ih =>
      have hc : c ≠ '\n' := fun he => h (he ▸ List.mem_cons_self c rest)
      have hr : '\n' ∉ rest := fun hm => h (List.mem_cons_of_mem c hm)
      rw [List.cons_append, splitNl, if_neg hc, ih hr]
      rfl

theorem splitNl_nlJoin : ∀ (L : List (List Char)), L ≠ [] →
    (∀ l ∈ L, '\n' ∉ l) → splitNl (nlJoin L) = L := by
  intro L
  induction L with
  | nil => intro h; exact absurd rfl h
  | cons l rest ih =>
      intro _ hnl
      cases rest with
      | nil =>
          show splitNl (nlJoin [l]) = [l]
          exact splitNl_no_nl l (hnl l (List.mem_cons_self l []))
      | cons m M =>
          rw [nlJoin_cons_of_ne_nil l (m :: M) (by simp)]
          rw [splitNl_append_nl _ _ (hnl l (List.mem_cons_self l (m :: M)))]
          rw [ih (by simp) (fun x hx => hnl x (List.mem_cons_of_mem l hx))]

theorem nlJoin_splitNl : ∀ cs : List Char, nlJoin (splitNl cs) = cs := by
  intro cs
  induction cs with
  | nil => rfl
  | cons c rest ih =>
      rw [splitNl]
      by_cases hc : c = '\n'
      · rw [if_pos hc]
        cases hs : splitNl rest with
        | nil => exact absurd hs (splitNl_ne_nil rest)
        | cons h t =>
            rw [nlJoin_cons_of_ne_nil [] (h :: t) (by simp)]
            rw [hs] at ih
            simp [hc, ih]
      · rw [if_neg hc]
        cases hs : splitNl rest with
        | nil => exact absurd hs (splitNl_ne_nil rest)
        | cons h t =>
            rw [hs] at ih
            simp only [List.modifyHead]
            cases t with
            | nil =>
                show nlJoin [c :: h] = c :: rest
                show c :: h = c :: rest
                rw [show h = nlJoin [h] from rfl, ih]
            | cons m M =>
                rw [nlJoin_cons_of_ne_nil (c :: h) (m :: M) (by simp)]
                rw [nlJoin_cons_of_ne_nil h (m :: M) (by simp)] at ih
                simp [← ih]

theorem nlJoin_append (A B : List (List Char)) (hA : A ≠ []) (hB : B ≠ []) :
    nlJoin (A ++ B) = nlJoin A ++ '\n' :: nlJoin B := by
  induction A with
  | nil => exact absurd rfl hA
  | cons a A ih =>
      cases A with
      | nil =>
          rw [List.cons_append, List.nil_append,
            nlJoin_cons_of_ne_nil a B hB]
          rfl
      | cons a2 A2 =>
          rw [List.cons_append,
            nlJoin_cons_of_ne_nil a ((a2 :: A2) ++ B) (by simp),
            nlJoin_cons_of_ne_nil a (a2 :: A2) (by simp),
            ih (by simp)]
          simp

theorem splitNl_head_decomp : ∀ (cs h : List Char) (t : List (List Char)),
    splitNl cs = h :: t → ∃ b, cs = h ++ b := by
  intro cs
  induction cs with
  | nil =>
      intro h t he
      simp [splitNl] at he
      exact ⟨[], by simp [he.1.symm]⟩
  | cons c rest ih =>
      intro h t he
      rw [splitNl] at he
      by_cases hc : c = '\n'
      · rw [if_pos hc] at he
        injection he with h1 h2
        exact ⟨c :: rest, by simp [h1.symm]⟩
      · rw [if_neg hc] at he
        cases hs : splitNl rest with
        | nil => exact absurd hs (splitNl_ne_nil rest)
        | cons h2 t2 =>
            rw [hs] at he
            simp only [List.modifyHead] at he
            injection he with he1 he2
            rcases ih h2 t2 hs with ⟨b, hb⟩
            exact ⟨b, by rw [← he1, hb]; rfl⟩

theorem mem_splitNl_decomp : ∀ (cs l : List Char), l ∈ splitNl cs →
    ∃ a b, cs = a ++ l ++ b := by
  intro cs
  induction cs with
  | nil =>
      intro l hl
      simp [splitNl] at hl
      exact ⟨[], [], by simp [hl]⟩
  | cons c rest ih =>
      intro l hl
      rw [splitNl] at hl
      by_cases hc : c = '\n'
      · rw [if_pos hc] at hl
        rcases List.mem_cons.mp hl with h1 | h1
        · exact ⟨[], c :: rest, by simp [h1]⟩
        · rcases ih l h1 with ⟨a, b, hab⟩
          exact ⟨c :: a, b, by rw [hab]; rfl⟩
      · rw [if_neg hc] at hl
        cases hs : splitNl rest with
        | nil => exact absurd hs (splitNl_ne_nil rest)
        | cons h t =>
            rw [hs] at hl
            simp only [List.modifyHead] at hl
            rcases List.mem_cons.mp hl with h1 | h1
            · subst h1
              rcases splitNl_head_decomp rest h t hs with ⟨b, hb⟩
              exact ⟨[], b, by rw [hb]; rfl⟩
            · rcases ih l (by rw [hs]; exact List.mem_cons_of_mem h h1) with ⟨a, b, hab⟩
              exact ⟨c :: a, b, by rw [hab]; rfl⟩

/-- The page-marker header `"=== PAGE "` as characters. -/
def pageHdr : List Char := "=== PAGE ".data

def markerTail : List Char := " ===".data

/-- The full page-marker line `"=== PAGE k ==="`. -/
def markerLine (k : Nat) : List Char := pageHdr ++ ((natToDec k).data ++ markerTail)

/-- The line structure of the concatenated page blocks, before stripping:
for each page (1-based index `i`) a marker line, the page text's own lines,
then the empty line produced by the adjacent `"\n"` separators. -/
def blockLines : Nat → List String → List (List Char)
  | _, [] => []
  | i, t :: rest => markerLine i :: (splitNl t.data ++ ([] :: blockLines (i + 1) rest))

theorem leadsWith_iff : ∀ (p l : List Char), leadsWith p l = true ↔ ∃ r, l = p ++ r := by
  intro p
  induction p with
  | nil => intro l; simp [leadsWith]
  | cons x ps ih =>
      intro l
      cases l with
      | nil => simp [leadsWith]
      | cons c cs =>
          rw [leadsWith]
          simp only [Bool.and_eq_true, beq_iff_eq]
          constructor
          · rintro ⟨h1, h2⟩
            rcases (ih cs).mp h2 with ⟨r, hr⟩
            exact ⟨r, by rw [h1, hr]; rfl⟩
          · rintro ⟨r, hr⟩
            rw [List.cons_append] at hr
            injection hr with h1 h2
            exact ⟨h1.symm, (ih cs).mpr ⟨r, h2⟩⟩

theorem leadsWith_append_self (p r : List Char) : leadsWith p (p ++ r) = true :=
  (leadsWith_iff p (p ++ r)).mpr ⟨r, rfl⟩

theorem leadsWith_mono (p l x : List Char) (h : leadsWith p l = true) :
    leadsWith p (l ++ x) = true := by
  rcases (leadsWith_iff p l).mp h with ⟨r, hr⟩
  subst hr
  rw [List.append_assoc]
  exact leadsWith_append_self p (r ++ x)

theorem containsSeq_decomp (p a b : List Char) : containsSeq p (a ++ p ++ b) = true := by
  induction a with
  | nil =>
      simp only [List.nil_append]
      cases hp : p ++ b with
      | nil =>
          rcases List.append_eq_nil.mp hp with ⟨h1, _⟩
          simp [containsSeq, h1]
      | cons c cs =>
          rw [containsSeq, ← hp]
          rw [leadsWith_append_self p b]
          simp
  | cons c a ih =>
      have hstep : (c :: a) ++ p ++ b = c :: (a ++ p ++ b) := by simp
      rw [hstep, containsSeq, ih]
      simp

/-- A line of `splitNl u` that starts with the page header witnesses the
header occurring inside `u`. -/
theorem mem_line_hdr (u l : List Char) (hl : l ∈ splitNl u)
    (hh : leadsWith pageHdr l = true) : containsSeq pageHdr u = true := by
  rcases mem_splitNl_decomp u l hl with ⟨a, b, hab⟩
  rcases (leadsWith_iff pageHdr l).mp hh with ⟨r, hr⟩
  subst hr
  have hu : u = a ++ pageHdr ++ (r ++ b) := by rw [hab]; simp
  rw [hu]
  exact containsSeq_decomp pageHdr a (r ++ b)

theorem rtrimL_nil_iff : ∀ cs : List Char,
    rtrimL cs = [] ↔ ∀ c ∈ cs, pyIsSpace c = true := by
  intro cs
  induction cs with
  | nil => simp [rtrimL]
  | cons c rest ih =>
      rw [rtrimL]
      cases hr : rtrimL rest with
      | nil =>
          by_cases hc : pyIsSpace c = true
          · simp only [hc, if_true]
            constructor
            · intro _ x hx
              rcases List.mem_cons.mp hx with h1 | h1
              · rw [h1]; exact hc
              · exact (ih.mp hr) x h1
            · intro _; trivial
          · simp only [hc, if_false]
            constructor
            · intro h; exact absurd h (by simp)
            · intro h
              exact absurd (h c (List.mem_cons_self c rest)) hc
      | cons x xs =>
          constructor
          · intro h; exact absurd h (by simp)
          · intro h
            have : rtrimL rest = [] := ih.mpr (fun y hy => h y (List.mem_cons_of_mem c hy))
            rw [this] at hr
            exact absurd hr (by simp)

theorem rtrimL_cons_of_sub_ne (c : Char) (cs : List Char) (h : rtrimL cs ≠ []) :
    rtrimL (c :: cs) = c :: rtrimL cs := by
  rw [rtrimL]
  cases hr : rtrimL cs with
  | nil => exact absurd hr h
  | cons x xs => rfl

theorem rtrimL_cons_nonspace (c : Char) (cs : List Char) (h : pyIsSpace c = false) :
    rtrimL (c :: cs) = c :: rtrimL cs := by
  rw [rtrimL]
  cases hr : rtrimL cs with
  | nil => simp [h]
  | cons x xs => rfl

theorem ltrimL_cons_nonspace (c : Char) (cs : List Char) (h : pyIsSpace c = false) :
    ltrimL (c :: cs) = c :: cs := by
  simp [ltrimL, List.dropWhile, h]

theorem ltrimL_cons_space (c : Char) (cs : List Char) (h : pyIsSpace c = true) :
    ltrimL (c :: cs) = ltrimL cs := by
  simp [ltrimL, List.dropWhile, h]

/-- Does the line end in a non-whitespace character (vacuously true when
empty)? -/
def endsNonSpace (l : List Char) : Bool :=
  match l.reverse with
  | [] => true
  | c :: _ => !pyIsSpace c

theorem reverse_head_mem (l : List Char) (x : Char) (xs : List Char)
    (h : l.reverse = x :: xs) : x ∈ l := by
  have : x ∈ l.reverse := by rw [h]; exact List.mem_cons_self x xs
  exact List.mem_reverse.mp this

theorem ends_space (q l : List Char) (hne : l ≠ [])
    (h : ∀ x ∈ l, pyIsSpace x = true) : endsNonSpace (q ++ l) = false := by
  cases he : l.reverse with
  | nil =>
      have : l = [] := by
        have := congrArg List.reverse he
        simpa using this
      exact absurd this hne
  | cons y ys =>
      have hy : y ∈ l := reverse_head_mem l y ys he
      rw [endsNonSpace, List.reverse_append, he]
      simp [h y hy]

theorem hdr_head : pageHdr = '=' :: "== PAGE ".data := by decide

theorem wsOnly_not_hdr (l : List Char) (h : ∀ x ∈ l, pyIsSpace x = true) :
    leadsWith pageHdr l = false := by
  cases l with
  | nil => rw [hdr_head]; rfl
  | cons c cs =>
      rw [hdr_head, leadsWith]
      have hc : c ≠ '=' := by
        intro he
        have := h c (List.mem_cons_self c cs)
        rw [he] at this
        exact absurd this (by decide)
      simp [Ne.symm hc]

theorem leadsWith_hdr_nil : leadsWith pageHdr [] = false := by
  rw [hdr_head]; rfl

/-- Lines of `cs` with the pending prefix `p` glued onto the first one. -/
def linesWith (p cs : List Char) : List (List Char) :=
  (splitNl cs).modifyHead (p ++ ·)

theorem linesWith_empty_pfx (cs : List Char) : linesWith [] cs = splitNl cs := by
  rw [linesWith]
  cases hs : splitNl cs with
  | nil => rfl
  | cons h t => simp [List.modifyHead]

theorem linesWith_nil (p : List Char) : linesWith p [] = [p] := by
  simp [linesWith, splitNl, List.modifyHead]

theorem linesWith_newline (p cs : List Char) :
    linesWith p ('\n' :: cs) = p :: splitNl cs := by
  rw [linesWith, splitNl, if_pos rfl]
  simp [List.modifyHead]

theorem linesWith_cons (p : List Char) (c : Char) (cs : List Char) (h : c ≠ '\n') :
    linesWith p (c :: cs) = linesWith (p ++ [c]) cs := by
  rw [linesWith, linesWith, splitNl, if_neg h]
  cases hs : splitNl cs with
  | nil => exact absurd hs (splitNl_ne_nil cs)
  | cons l t => simp [List.modifyHead]

theorem filter_space_lines (cs : List Char) (h : ∀ x ∈ cs, pyIsSpace x = true) :
    (splitNl cs).filter (leadsWith pageHdr) = [] := by
  rw [List.filter_eq_nil_iff]
  intro l hl
  have hall : ∀ x ∈ l, pyIsSpace x = true := by
    intro x hx
    rcases mem_splitNl_decomp cs l hl with ⟨a, b, hab⟩
    exact h x (by rw [hab]; simp [hx])
  simp [wsOnly_not_hdr l hall]

/-- Right-trimming the blob does not change which lines lead with the page
header, provided every header-leading line ends in a non-whitespace
character. -/
theorem filter_rtrim : ∀ (cs q : List Char),
    (∀ l ∈ linesWith q cs, leadsWith pageHdr l = true → endsNonSpace l = true) →
    (linesWith q (rtrimL cs)).filter (leadsWith pageHdr)
      = (linesWith q cs).filter (leadsWith pageHdr) := by
  intro cs
  induction cs with
  | nil => intro q H; rfl
  | cons c cs ih =>
      intro q H
      by_cases hsub : rtrimL cs = []
      · have hall : ∀ x ∈ cs, pyIsSpace x = true := (rtrimL_nil_iff cs).mp hsub
        by_cases hc : pyIsSpace c = true
        · have hr : rtrimL (c :: cs) = [] :=
            (rtrimL_nil_iff (c :: cs)).mpr (by
              intro x hx
              rcases List.mem_cons.mp hx with h1 | h1
              · rw [h1]; exact hc
              · exact hall x h1)
          rw [hr, linesWith_nil]
          by_cases hcn : c = '\n'
          · subst hcn
            rw [linesWith_newline]
            rw [List.filter_cons, List.filter_cons]
            rw [filter_space_lines cs hall]
            simp
          · rw [linesWith_cons q c cs hcn, linesWith]
            cases hs : splitNl cs with
            | nil => exact absurd hs (splitNl_ne_nil cs)
            | cons h t =>
                simp only [List.modifyHead]
                have hch : ∀ x ∈ c :: h, pyIsSpace x = true := by
                  intro x hx
                  rcases List.mem_cons.mp hx with h1 | h1
                  · rw [h1]; exact hc
                  · rcases mem_splitNl_decomp cs h
                      (hs ▸ List.mem_cons_self h t) with ⟨a, b, hab⟩
                    exact hall x (by rw [hab]; simp [h1])
                have hhead : q ++ [c] ++ h = q ++ (c :: h) := by simp
                have hfalseA : leadsWith pageHdr (q ++ [c] ++ h) = false := by
                  cases hlw : leadsWith pageHdr (q ++ [c] ++ h) with
                  | false => rfl
                  | true =>
                      have hm : (q ++ [c] ++ h) ∈ linesWith q (c :: cs) := by
                        rw [linesWith_cons q c cs hcn, linesWith, hs]
                        simp only [List.modifyHead]
                        exact List.mem_cons_self _ _
                      have hend := H _ hm hlw
                      rw [hhead] at hend
                      rw [ends_space q (c :: h) (by simp) hch] at hend
                      simp at hend
                have hfalseq : leadsWith pageHdr q = false := by
                  cases hlw : leadsWith pageHdr q with
                  | false => rfl
                  | true =>
                      have hmono := leadsWith_mono pageHdr q (c :: h) hlw
                      rw [← hhead] at hmono
                      rw [hmono] at hfalseA
                      simp at hfalseA
                have htail : t.filter (leadsWith pageHdr) = [] := by
                  rw [List.filter_eq_nil_iff]
                  intro l hl
                  have hlmem : l ∈ splitNl cs := hs ▸ List.mem_cons_of_mem h hl
                  have hall2 : ∀ x ∈ l, pyIsSpace x = true := by
                    intro x hx
                    rcases mem_splitNl_decomp cs l hlmem with ⟨a, b, hab⟩
                    exact hall x (by rw [hab]; simp [hx])
                  simp [wsOnly_not_hdr l hall2]
                rw [List.filter_cons, List.filter_cons]
                rw [hfalseA, hfalseq, htail]
                simp
        · -- c is not whitespace, everything after it is: rtrimL keeps exactly [c]
          have hcn : c ≠ '\n' := by
            intro he
            rw [he] at hc
            exact hc (by decide)
          have hr : rtrimL (c :: cs) = [c] := by
            rw [rtrimL, hsub]
            simp [hc]
          rw [hr, linesWith_cons q c [] hcn, linesWith_nil]
          rw [linesWith_cons q c cs hcn, linesWith]
          cases hs : splitNl cs with
          | nil => exact absurd hs (splitNl_ne_nil cs)
          | cons h t =>
              simp only [List.modifyHead]
              have hhall : ∀ x ∈ h, pyIsSpace x = true := by
                intro x hx
                rcases mem_splitNl_decomp cs h
                  (hs ▸ List.mem_cons_self h t) with ⟨a, b, hab⟩
                exact hall x (by rw [hab]; simp [hx])
              have htail : t.filter (leadsWith pageHdr) = [] := by
                rw [List.filter_eq_nil_iff]
                intro l hl
                have hlmem : l ∈ splitNl cs := hs ▸ List.mem_cons_of_mem h hl
                have hall2 : ∀ x ∈ l, pyIsSpace x = true := by
                  intro x hx
                  rcases mem_splitNl_decomp cs l hlmem with ⟨a, b, hab⟩
                  exact hall x (by rw [hab]; simp [hx])
                simp [wsOnly_not_hdr l hall2]
              cases hhe : h with
              | nil =>
                  rw [List.filter_cons, List.filter_cons, htail]
                  simp
              | cons y ys =>
                  -- the full head line ends in whitespace, the trimmed one is q ++ [c]
                  have hch : ∀ x ∈ h, pyIsSpace x = true := hhall
                  have hfalseA : leadsWith pageHdr (q ++ [c] ++ h) = false := by
                    cases hlw : leadsWith pageHdr (q ++ [c] ++ h) with
                    | false => rfl
                    | true =>
                        have hm : (q ++ [c] ++ h) ∈ linesWith q (c :: cs) := by
                          rw [linesWith_cons q c cs hcn, linesWith, hs]
                          simp only [List.modifyHead]
                          exact List.mem_cons_self _ _
                        have hend := H _ hm hlw
                        rw [show q ++ [c] ++ h = (q ++ [c]) ++ h from by simp] at hend
                        rw [ends_space (q ++ [c]) h (by rw [hhe]; simp) hhall] at hend
                        simp at hend
                  have hfalseB : leadsWith pageHdr (q ++ [c]) = false := by
                    cases hlw : leadsWith pageHdr (q ++ [c]) with
                    | false => rfl
                    | true =>
                        have hmono := leadsWith_mono pageHdr (q ++ [c]) h hlw
                        rw [show q ++ [c] ++ h = q ++ [c] ++ h from rfl] at hmono
                        rw [hmono] at hfalseA
                        simp at hfalseA
                  rw [← hhe]
                  rw [List.filter_cons, List.filter_cons]
                  rw [hfalseA, hfalseB, htail]
                  simp
      · have hr := rtrimL_cons_of_sub_ne c cs hsub
        rw [hr]
        by_cases hcn : c = '\n'
        · subst hcn
          rw [linesWith_newline, linesWith_newline]
          have hrec := ih [] (by
            intro l hl hlw
            refine H l ?_ hlw
            rw [linesWith_newline]
            exact List.mem_cons_of_mem q (by rwa [linesWith_empty_pfx] at hl))
          rw [linesWith_empty_pfx, linesWith_empty_pfx] at hrec
          rw [List.filter_cons, List.filter_cons, hrec]
        · rw [linesWith_cons q c (rtrimL cs) hcn, linesWith_cons q c cs hcn]
          exact ih (q ++ [c]) (by rw [← linesWith_cons q c cs hcn]; exact H)

theorem marker_no_nl (k : Nat) : '\n' ∉ markerLine k := by
  intro h
  rw [markerLine] at h
  rcases List.mem_append.mp h with h1 | h1
  · revert h1; decide
  · rcases List.mem_append.mp h1 with h2 | h2
    · rcases natToDecAux_digits (k + 1) k '\n' h2 with ⟨d, hd, he⟩
      exact digit_not_nl hd he.symm
    · revert h2; decide

theorem marker_leads (k : Nat) : leadsWith pageHdr (markerLine k) = true :=
  leadsWith_append_self pageHdr _

theorem marker_ends (k : Nat) : endsNonSpace (markerLine k) = true := by
  have h1 : (markerLine k).reverse
      = '=' :: (['=', '=', ' '] ++ ((natToDec k).data.reverse ++ pageHdr.reverse)) := by
    rw [markerLine, List.reverse_append, List.reverse_append]
    rw [show markerTail.reverse = '=' :: ['=', '=', ' '] from by decide]
    simp
  rw [endsNonSpace, h1]
  rfl

theorem marker_inj (a b : Nat) (h : markerLine a = markerLine b) : a = b := by
  rw [markerLine, markerLine] at h
  have h2 := List.append_cancel_left h
  have h3 := List.append_cancel_right h2
  have h4 : decVal (natToDec a).data = decVal (natToDec b).data := by rw [h3]
  rwa [decVal_natToDec, decVal_natToDec] at h4

theorem blockLines_cons_ne_nil (i : Nat) (t : String) (rest : List String) :
    blockLines i (t :: rest) ≠ [] := by
  rw [blockLines]; simp

theorem mem_blockLines : ∀ (ts : List String) (i : Nat) (l : List Char),
    l ∈ blockLines i ts →
    (∃ k, l = markerLine (i + k)) ∨ (∃ t ∈ ts, l ∈ splitNl t.data) ∨ l = [] := by
  intro ts
  induction ts with
  | nil => intro i l hl; simp [blockLines] at hl
  | cons t rest ih =>
      intro i l hl
      rw [blockLines] at hl
      rcases List.mem_cons.mp hl with h1 | h1
      · exact Or.inl ⟨0, by simpa using h1⟩
      · rcases List.mem_append.mp h1 with h2 | h2
        · exact Or.inr (Or.inl ⟨t, List.mem_cons_self t rest, h2⟩)
        · rcases List.mem_cons.mp h2 with h3 | h3
          · exact Or.inr (Or.inr h3)
          · rcases ih (i + 1) l h3 with ⟨k, hk⟩ | ⟨t2, ht2, hlt⟩ | h4
            · exact Or.inl ⟨k + 1, by rw [hk, show i + 1 + k = i + (k + 1) from by omega]⟩
            · exact Or.inr (Or.inl ⟨t2, List.mem_cons_of_mem t ht2, hlt⟩)
            · exact Or.inr (Or.inr h4)

theorem blockLines_no_nl (ts : List String) (i : Nat) :
    ∀ l ∈ blockLines i ts, '\n' ∉ l := by
  intro l hl
  rcases mem_blockLines ts i l hl with ⟨k, hk⟩ | ⟨t, _, hlt⟩ | h4
  · rw [hk]; exact marker_no_nl _
  · exact mem_splitNl_no_nl t.data l hlt
  · rw [h4]; simp

theorem filter_blockLines : ∀ (ts : List String) (i : Nat),
    (∀ t ∈ ts, containsSeq pageHdr t.data = false) →
    (blockLines i ts).filter (leadsWith pageHdr)
      = (List.range ts.length).map (fun k => markerLine (i + k)) := by
  intro ts
  induction ts with
  | nil => intro i _; simp [blockLines]
  | cons t rest ih =>
      intro i h
      rw [blockLines, List.filter_cons, marker_leads]
      rw [List.filter_append, List.filter_cons]
      have hA : (splitNl t.data).filter (leadsWith pageHdr) = [] := by
        rw [List.filter_eq_nil_iff]
        intro l hl
        intro hlw
        have := mem_line_hdr t.data l hl hlw
        rw [h t (List.mem_cons_self t rest)] at this
        exact absurd this (by simp)
      rw [hA, leadsWith_hdr_nil]
      rw [ih (i + 1) (fun x hx => h x (List.mem_cons_of_mem t hx))]
      rw [List.length_cons, List.range_succ_eq_map, List.map_cons, List.map_map]
      have hfun : ((fun k => markerLine (i + k)) ∘ Nat.succ)
          = (fun k => markerLine (i + 1 + k)) := by
        funext k
        simp only [Function.comp]
        rw [show i + Nat.succ k = i + 1 + k from by omega]
      rw [hfun]
      simp

theorem pageBlock_data (i : Nat) (t : String) :
    (pageBlock i t).data = '\n' :: (markerLine i ++ '\n' :: (t.data ++ ['\n'])) := by
  rw [pageBlock]
  repeat rw [String.data_append]
  rw [show ("\n=== PAGE ").data = '\n' :: pageHdr from by decide,
      show (" ===\n").data = markerTail ++ ['\n'] from by decide,
      show ("\n").data = ['\n'] from by decide]
  simp [markerLine]

theorem append_cons_ne_nil (A : List (List Char)) (x : List Char)
    (B : List (List Char)) : A ++ (x :: B) ≠ [] := by
  cases A <;> simp

theorem concatPages_data : ∀ (ts : List String) (i : Nat), ts ≠ [] →
    (concatPages i ts).data = '\n' :: nlJoin (blockLines i ts) := by
  intro ts
  induction ts with
  | nil => intro i h; exact absurd rfl h
  | cons t rest ih =>
      intro i _
      rw [concatPages, String.data_append, pageBlock_data]
      rw [blockLines]
      rw [nlJoin_cons_of_ne_nil _ _ (append_cons_ne_nil _ _ _)]
      cases rest with
      | nil =>
          rw [show concatPages (i + 1) [] = "" from rfl]
          rw [show ("" : String).data = [] from rfl]
          rw [show blockLines (i + 1) [] = [] from rfl]
          rw [nlJoin_append _ _ (splitNl_ne_nil t.data) (by simp)]
          rw [nlJoin_splitNl]
          rw [show nlJoin [[]] = [] from rfl]
          simp
      | cons r rs =>
          rw [ih (i + 1) (by simp)]
          rw [nlJoin_append _ _ (splitNl_ne_nil t.data) (by simp)]
          rw [nlJoin_splitNl]
          rw [nlJoin_cons_of_ne_nil _ _ (blockLines_cons_ne_nil (i + 1) r rs)]
          simp

/-- Claim C4 counterexample: when a page's own text contains its page marker,
the marker occurs more than once in the returned blob (here: twice, as two
identical lines), so "each marker occurs exactly once" fails for arbitrary
page texts. -/
theorem C4_counterexample :
    (match extract_text_from_pdf ["=== PAGE 1 ==="] with
      | .ok b => ((splitNl b.data).filter (fun l => l == markerLine 1)).length
      | .error _ => 0) = 2 := by decide

/-- Claim C4 (amended): for every nonempty page-text sequence in which no page
text itself contains the page-header string `"=== PAGE "`, the extraction blob
contains the page markers as exactly the header-leading lines, in ascending
page order — one marker per page, 1-based — and distinct page numbers give
distinct markers. -/
theorem C4_amended_markers_once_in_order (ts : List String) (h1 : ts ≠ [])
    (h2 : ∀ t ∈ ts, containsSeq pageHdr t.data = false) (blob : String)
    (hb : extract_text_from_pdf ts = .ok blob) :
    ((splitNl blob.data).filter (leadsWith pageHdr)
      = (List.range ts.length).map (fun k => markerLine (k + 1)))
    ∧ ∀ a b : Nat, markerLine a = markerLine b → a = b := by
  refine ⟨?_, marker_inj⟩
  cases ts with
  | nil => exact absurd rfl h1
  | cons t rest =>
  rw [show extract_text_from_pdf (t :: rest)
      = .ok (pyStrip (concatPages 1 (t :: rest))) from rfl] at hb
  injection hb with hb
  subst hb
  rw [pyStrip, show ∀ l : List Char, (String.mk l).data = l from fun _ => rfl]
  rw [concatPages_data (t :: rest) 1 (by simp)]
  -- pyStrip peels the leading newline and leaves a right-trimmed blob
  have hX : ∃ Y, nlJoin (blockLines 1 (t :: rest)) = '=' :: Y := by
    rw [blockLines, nlJoin_cons_of_ne_nil _ _ (append_cons_ne_nil _ _ _)]
    rw [markerLine, hdr_head]
    exact ⟨_, rfl⟩
  rcases hX with ⟨Y, hXY⟩
  have hrX : rtrimL (nlJoin (blockLines 1 (t :: rest)))
      = '=' :: rtrimL Y := by
    rw [hXY]
    exact rtrimL_cons_nonspace '=' Y (by decide)
  have hrne : rtrimL (nlJoin (blockLines 1 (t :: rest))) ≠ [] := by
    rw [hrX]; simp
  rw [rtrimL_cons_of_sub_ne '\n' _ hrne]
  rw [ltrimL_cons_space '\n' _ (by decide)]
  rw [hrX, ltrimL_cons_nonspace '=' _ (by decide), ← hrX]
  -- the split of the un-trimmed join is exactly the block lines
  have hsplit : splitNl (nlJoin (blockLines 1 (t :: rest))) = blockLines 1 (t :: rest) :=
    splitNl_nlJoin _ (blockLines_cons_ne_nil 1 t rest) (blockLines_no_nl (t :: rest) 1)
  have hH : ∀ l ∈ linesWith [] (nlJoin (blockLines 1 (t :: rest))),
      leadsWith pageHdr l = true → endsNonSpace l = true := by
    intro l hl hlw
    rw [linesWith_empty_pfx, hsplit] at hl
    rcases mem_blockLines (t :: rest) 1 l hl with ⟨k, hk⟩ | ⟨t2, ht2, hlt⟩ | h4
    · rw [hk]; exact marker_ends _
    · have := mem_line_hdr t2.data l hlt hlw
      rw [h2 t2 ht2] at this
      exact absurd this (by simp)
    · rw [h4] at hlw
      rw [leadsWith_hdr_nil] at hlw
      exact absurd hlw (by simp)
  have hfr := filter_rtrim (nlJoin (blockLines 1 (t :: rest))) [] hH
  rw [linesWith_empty_pfx, linesWith_empty_pfx] at hfr
  rw [hfr, hsplit]
  rw [filter_blockLines (t :: rest) 1 h2]
  have hfun : (fun k => markerLine (1 + k)) = (fun k => markerLine (k + 1)) := by
    funext k
    rw [Nat.add_comm]
  rw [hfun]

/-- Witness for the amended C4 at a concrete two-page document. -/
theorem C4_amended_markers_once_in_order_witness :
    ((splitNl (pyStrip (concatPages 1 ["hello", "world"])).data).filter (leadsWith pageHdr)
      = (List.range (["hello", "world"] : List String).length).map
          (fun k => markerLine (k + 1)))
    ∧ ∀ a b : Nat, markerLine a = markerLine b → a = b :=
  C4_amended_markers_once_in_order ["hello", "world"] (by simp) (by decide)
    (pyStrip (concatPages 1 ["hello", "world"])) rfl

end TelegramApp
